import Mathlib

/-!
A verification development for the PR-analysis pipeline of `app/tools/analyse_pr.py`
(with its default configuration from `app/config.py`).

Strings are modelled as `List Char`; Python floats are modelled exactly as
rationals (`ℚ`); Python dicts with optional keys become structures with
`Option` fields; the network (the Ollama backends) becomes an explicit
environment listing, for each configured model in order, the outcome the
request would have; wall-clock fields (`timestamp`, `response_time`) are not
modelled.  Every definition mirrors the corresponding Python function
line by line.
-/

abbrev Str := List Char

/-- Python `str.lower()` on ASCII text, characterwise. -/
def lowerStr (l : Str) : Str := l.map Char.toLower

/-- The characters Python `str.strip()` and the regex class `\s` treat as
whitespace (ASCII range). -/
def isWs (c : Char) : Bool :=
  c == ' ' || c == '\t' || c == '\n' || c == '\r' || c == '\x0b' || c == '\x0c'

/-- Python `str.strip()`: drop whitespace from both ends. -/
def pyStrip (l : Str) : Str :=
  ((l.dropWhile isWs).reverse.dropWhile isWs).reverse

/-- Python's substring test `pat in l`, as a Boolean. -/
def containsSub (l pat : Str) : Bool := decide (pat <:+: l)

/-- Truthiness of the Python variable `current_file` (initialised to `None`,
assigned file-path strings): `None` and the empty string are falsy. -/
def pyTruthy (o : Option Str) : Bool :=
  match o with
  | none => false
  | some s => !s.isEmpty

/-- `app/config.py::AnalysisConfig`: the analysis part of the configuration.
`risk_keywords` and `file_type_weights` keep the Python dicts' insertion
order, which is the iteration order the analyzer depends on. -/
structure AnalysisConfig where
  max_diff_size : ℕ
  risk_keywords : List (Str × ℚ)
  file_type_weights : List (Str × ℚ)
deriving DecidableEq

/-- The default `risk_keywords` dict of `AnalysisConfig.__post_init__`,
in insertion order. -/
def defaultRiskKeywords : List (Str × ℚ) :=
  [("TODO".toList, 0.2), ("FIXME".toList, 0.3), ("HACK".toList, 0.4),
   ("XXX".toList, 0.3), ("password".toList, 0.6), ("secret".toList, 0.6),
   ("api_key".toList, 0.6), ("token".toList, 0.4), ("eval(".toList, 0.7),
   ("exec(".toList, 0.7), ("os.system".toList, 0.8), ("subprocess".toList, 0.4),
   ("shell=True".toList, 0.6)]

/-- The default `file_type_weights` dict of `AnalysisConfig.__post_init__`,
in insertion order. -/
def defaultFileTypeWeights : List (Str × ℚ) :=
  [(".py".toList, 1.0), (".js".toList, 1.0), (".ts".toList, 1.0),
   (".java".toList, 1.0), (".cpp".toList, 1.0), (".sql".toList, 1.3),
   (".sh".toList, 1.3), (".yml".toList, 0.8), (".yaml".toList, 0.8),
   (".json".toList, 0.8), (".md".toList, 0.5), (".txt".toList, 0.5)]

/-- The default analysis configuration (`AnalysisConfig()` with no config file). -/
def defaultConfig : AnalysisConfig :=
  ⟨50000, defaultRiskKeywords, defaultFileTypeWeights⟩

/-- The default ordered Ollama model list of `OllamaConfig.__post_init__`. -/
def defaultModels : List Str :=
  ["llama3.2:3b".toList, "qwen2.5-coder:1.5b".toList, "tinyllama".toList]

/-- One entry of the `notable_issues` list.  The Python code builds these as
dicts; validation-failure and error entries carry only `file` and `issue`,
parser findings carry all five keys, so the last three are `Option`s. -/
structure IssueDict where
  file : Str
  issue : Str
  line_preview : Option Str
  risk_weight : Option ℚ
  keyword : Option Str
deriving DecidableEq

/-- `validate_pr_input`: the four checks in source order, first failure wins. -/
def validate_pr_input (cfg : AnalysisConfig) (s : Str) : Bool × Str :=
  if s = [] then (false, "PR diff text is empty".toList)
  else if pyStrip s = [] then (false, "PR diff text contains only whitespace".toList)
  else if cfg.max_diff_size < s.length then
    (false, "PR diff too large (".toList ++ (toString s.length).toList ++
      " chars). Maximum ".toList ++ (toString cfg.max_diff_size).toList ++
      " characters.".toList)
  else if containsSub s ("diff --git".toList) = false then
    (false, "Invalid PR diff format - missing \x27diff --git\x27 header".toList)
  else (true, "Valid input".toList)

/-- The final component of a POSIX path (pathlib `PurePath.name`):
the last nonempty `/`-separated segment. -/
def pathName (p : Str) : Str :=
  ((p.splitOn '/').filter (fun seg => seg ≠ [])).getLastD []

/-- pathlib `PurePath.suffix`: the part of `name` from its last dot on,
empty when the last dot is the first character, the last character, or absent. -/
def pySuffix (p : Str) : Str :=
  let name := pathName p
  match name.reverse.findIdx? (fun c => c == '.') with
  | none => []
  | some j =>
    let i := name.length - 1 - j
    if 0 < i ∧ i < name.length - 1 then name.drop i else []

/-- `config.analysis.file_type_weights.get(file_ext, 1.0)` applied to
`Path(file_path).suffix.lower()`. -/
def extWeight (cfg : AnalysisConfig) (f : Str) : ℚ :=
  (cfg.file_type_weights.lookup (lowerStr (pySuffix f))).getD 1

/-- `calculate_risk_score`: base 0.1, plus the issues' `risk_weight`s
(0.2 when the key is absent), plus the average file-extension weight scaled
by 0.1 (0 when no files changed), capped at 1.0 (Python `min(total, 1.0)`,
spelled as the conditional it denotes so that it evaluates). -/
def calculate_risk_score (cfg : AnalysisConfig) (files : List Str)
    (issues : List IssueDict) : ℚ :=
  let issue_risk := issues.foldl (fun acc i => acc + i.risk_weight.getD 0.2) 0
  let file_risk := files.foldl (fun acc f => acc + extWeight cfg f * 0.1) 0
  let total := 0.1 + issue_risk +
    (if files ≠ [] then file_risk / (files.length : ℚ) else 0)
  if total ≤ 1 then total else 1

/-- The diff parser's loop state inside `analyze_pr`: the `current_file`
cursor together with the accumulated `files_changed` and `notable_issues`. -/
structure ParseState where
  current_file : Option Str
  files_changed : List Str
  notable_issues : List IssueDict
deriving DecidableEq

/-- The initial parser state (`current_file = None`, empty accumulators). -/
def initState : ParseState := ⟨none, [], []⟩

/-- The parser finding appended for a matched keyword `k` of weight `w`
on added line `line` of file `f`. -/
def mkFinding (f k : Str) (w : ℚ) (line : Str) : IssueDict :=
  ⟨f, "Contains ".toList ++ k ++ " in added lines".toList,
   some ((pyStrip line).take 100), some w, some k⟩

/-- One iteration of the `for line in lines` loop of `analyze_pr`
(source lines 270-294): file-header lines move the cursor via
`parts[2][2:]` and extend `files_changed` without duplicates; added lines
under a truthy cursor are scanned case-insensitively against the risk
keywords in configuration order, appending one finding for the first match. -/
def processLine (cfg : AnalysisConfig) (st : ParseState) (line : Str) : ParseState :=
  if ("diff --git".toList).isPrefixOf line then
    let parts := line.splitOn ' '
    if 3 ≤ parts.length then
      let cur := ((parts.get? 2).getD []).drop 2
      { st with current_file := some cur,
                files_changed :=
                  if st.files_changed.contains cur then st.files_changed
                  else st.files_changed ++ [cur] }
    else st
  else if (['+'].isPrefixOf line && pyTruthy st.current_file) then
    let f := st.current_file.getD []
    let ll := lowerStr line
    match cfg.risk_keywords.find? (fun p => containsSub ll (lowerStr p.1)) with
    | some (k, w) =>
      { st with notable_issues := st.notable_issues ++ [mkFinding f k w line] }
    | none => st
  else st

/-- The whole parsing pass of `analyze_pr`: split on newlines, fold the
per-line step over the initial state. -/
def parseDiff (cfg : AnalysisConfig) (s : Str) : ParseState :=
  (s.splitOn '\n').foldl (processLine cfg) initState

/-- `suggested_tests` as derived from the risk score (source lines 305-309). -/
def suggestedTests (r : ℚ) : List Str :=
  ["Run unit tests".toList] ++
  (if 0.3 < r then ["Run integration tests".toList] else []) ++
  (if 0.5 < r then ["Security review required".toList] else [])

/-- `suggested_labels` as derived from the score and issues (lines 311-313). -/
def suggestedLabels (r : ℚ) (issues : List IssueDict) : List Str :=
  if 0.7 < r then ["high-risk".toList, "security-review".toList]
  else if issues ≠ [] then ["needs-review".toList] else ["approved".toList]

/-- Decimal rendering of a natural number, as a character list. -/
def natStr (n : ℕ) : Str := (toString n).toList

/-- The `analysis_data` dict handed from `analyze_pr` to the summary stage. -/
structure AnalysisData where
  files_changed : List Str
  risk_score : ℚ
  notable_issues : List IssueDict
  summary : Str
deriving DecidableEq

/-- `generate_intelligent_fallback`: the deterministic narrative used when
every backend fails.  High-risk issues are those with `risk_weight`
(defaulting to 0 here) above 0.5. -/
def generate_intelligent_fallback (d : AnalysisData) : Str :=
  let s1 := "This PR modifies ".toList ++ natStr d.files_changed.length ++
    " file(s)".toList
  let s2 :=
    if d.notable_issues ≠ [] then
      let high := d.notable_issues.filter
        (fun i => decide ((0.5 : ℚ) < i.risk_weight.getD 0))
      if high ≠ [] then
        s1 ++ " and contains ".toList ++ natStr high.length ++
          " high-risk issue(s)".toList
      else
        s1 ++ " and contains ".toList ++ natStr d.notable_issues.length ++
          " issue(s)".toList
    else s1
  if 0.7 < d.risk_score then
    s2 ++ ". High risk - requires security review.".toList
  else if 0.3 < d.risk_score then
    s2 ++ ". Medium risk - careful review recommended.".toList
  else
    s2 ++ ". Low risk - standard review process.".toList

/-- The six meta-commentary openings stripped by `clean_ai_response`. -/
def metaStarts : List Str :=
  ["Here is a concise professional code review:".toList,
   "Here\x27s a concise professional code review:".toList,
   "Here is a professional assessment:".toList,
   "Here\x27s my code review:".toList,
   "Based on the PR diff:".toList,
   "Looking at this PR:".toList]

/-- The opening-strip loop of `clean_ai_response`: for each known opening in
order, if the text starts with it, drop it and strip whitespace. -/
def stripMetaStarts (s : Str) : Str :=
  metaStarts.foldl (fun r p => if p.isPrefixOf r then pyStrip (r.drop p.length) else r) s

/-- Case-insensitive "the text starts with `pat`" (`pat` given lowercase). -/
def ciPref (pat l : Str) : Bool := pat.isPrefixOf (lowerStr l)

/-- Case-insensitive "the text contains `pat`" (`pat` given lowercase). -/
def ciContains (l pat : Str) : Bool := containsSub (lowerStr l) pat

/-- The part of the text before the next newline (regex `.` stops at `\n`). -/
def takeNotNl (l : Str) : Str := l.takeWhile (fun c => c != '\n')

/-- Lowercased trigger strings of the three banned trailing patterns. -/
def noteStr : Str := "note:".toList

/-- Lowercased first literal of the pattern `Overall.*recommendation.*$`. -/
def ovStr : Str := "overall".toList

/-- Lowercased second literal of the pattern `Overall.*recommendation.*$`. -/
def recStr : Str := "recommendation".toList

/-- Lowercased first literal of the pattern `I've kept.*concise.*$`. -/
def keptStr : Str := "i\x27ve kept".toList

/-- Lowercased second literal of the pattern `I've kept.*concise.*$`. -/
def conciseStr : Str := "concise".toList

/-- Does a match of `Note:.*$` (IGNORECASE) start at the head of `l`? -/
def noteGuard (l : Str) : Bool := ciPref noteStr l

/-- Does a match of `Overall.*recommendation.*$` start at the head of `l`?
`.` cannot cross a newline, so `recommendation` must occur after the
7-character literal but before the next newline. -/
def ovGuard (l : Str) : Bool :=
  ciPref ovStr l && ciContains (takeNotNl (l.drop 7)) recStr

/-- Does a match of `I've kept.*concise.*$` start at the head of `l`? -/
def keptGuard (l : Str) : Bool :=
  ciPref keptStr l && ciContains (takeNotNl (l.drop 9)) conciseStr

/-- `re.sub(pat, "", text, IGNORECASE | MULTILINE)` for the three trailing
patterns: scanning left to right, a position where the pattern's guard fires
erases everything up to the next newline (the greedy `.*$` runs to the line
end), and scanning resumes at that newline.  The Boolean records "currently
inside an erased region". -/
def subPatAux (g : Str → Bool) : Bool → Str → Str
  | _, [] => []
  | skip, c :: cs =>
    if c = '\n' then c :: subPatAux g false cs
    else if skip then subPatAux g true cs
    else if g (c :: cs) then subPatAux g true cs
    else c :: subPatAux g false cs

/-- Removal of `Note:.*$` matches. -/
def subNote (l : Str) : Str := subPatAux noteGuard false l

/-- Removal of `Overall.*recommendation.*$` matches. -/
def subOverall (l : Str) : Str := subPatAux ovGuard false l

/-- Removal of `I've kept.*concise.*$` matches. -/
def subKept (l : Str) : Str := subPatAux keptGuard false l

/-- `re.sub(r'\s+', ' ', text)`: collapse every whitespace run to one space.
The Boolean records "inside a run whose space was already emitted". -/
def collapseWsAux : Bool → Str → Str
  | _, [] => []
  | inWs, c :: cs =>
    if isWs c then
      if inWs then collapseWsAux true cs else ' ' :: collapseWsAux true cs
    else c :: collapseWsAux false cs

/-- Whitespace-run collapsing. -/
def collapseWs (l : Str) : Str := collapseWsAux false l

/-- `re.sub(r'\.\s*\.', '.', text)`: non-overlapping left-to-right matches of
dot, optional whitespace, dot are replaced by a single dot, scanning resuming
after the second dot.  The `Option Str` state holds the whitespace buffered
since a pending first dot. -/
def cpAux : Str → Option Str → Str
  | [], none => []
  | [], some buf => '.' :: buf
  | c :: cs, none => if c = '.' then cpAux cs (some []) else c :: cpAux cs none
  | c :: cs, some buf =>
    if c = '.' then '.' :: cpAux cs none
    else if isWs c then cpAux cs (some (buf ++ [c]))
    else '.' :: (buf ++ c :: cpAux cs none)

/-- Duplicate-period collapsing. -/
def collapsePeriods (l : Str) : Str := cpAux l none

/-- Does the text end in `.`, `!` or `?` (Python `endswith(('.', '!', '?'))`)? -/
def endsPunct (l : Str) : Bool :=
  match l.getLast? with
  | some c => c == '.' || c == '!' || c == '?'
  | none => false

/-- `clean_ai_response`: strip known openings, erase the three trailing
meta-commentary patterns (stripping whitespace after each), collapse
whitespace runs, collapse duplicated periods, and append a final period to a
nonempty result lacking terminal punctuation. -/
def clean_ai_response (s : Str) : Str :=
  let r1 := stripMetaStarts s
  let r2 := pyStrip (subKept (pyStrip (subOverall (pyStrip (subNote r1)))))
  let r3 := collapseWs r2
  let r4 := collapsePeriods r3
  if r4 ≠ [] ∧ endsPunct r4 = false then r4 ++ ['.'] else r4

/-- What the network would answer for one backend model: the body of a
successful (HTTP 200) response, or the failure the `try/except` arms of
`get_llm_summary` distinguish. -/
inductive BackendOutcome where
  | success (text : Str)
  | httpError (code : ℕ)
  | connError
  | timeout
  | otherError (msg : Str)
deriving DecidableEq

/-- Is this outcome the successful one? -/
def BackendOutcome.isSuccess : BackendOutcome → Bool
  | .success _ => true
  | _ => false

/-- The `metadata["llm_error"]` string recorded for a failing outcome. -/
def backendErrorStr : BackendOutcome → Str
  | .httpError code => "HTTP ".toList ++ natStr code
  | .connError => "Connection failed".toList
  | .timeout => "Timeout".toList
  | .otherError msg => msg
  | .success _ => []

/-- The `metadata` dict of `get_llm_summary`, minus the wall-clock
`response_time` field. -/
structure LlmMetadata where
  llm_used : Option Str
  llm_success : Bool
  llm_error : Option Str
deriving DecidableEq

/-- The backend loop of `get_llm_summary` over the environment pairing each
configured model, in order, with its network outcome.  Besides the returned
text and metadata it accumulates the list of models actually attempted
(mirroring the "Attempting LLM analysis" log line at the top of each
iteration). -/
def llmLoop (d : AnalysisData) :
    List (Str × BackendOutcome) → LlmMetadata → List Str →
    Str × LlmMetadata × List Str
  | [], meta, att => (generate_intelligent_fallback d, meta, att)
  | (m, o) :: rest, meta, att =>
    match o with
    | .success t =>
      (clean_ai_response t, ⟨some m, true, meta.llm_error⟩, att ++ [m])
    | o => llmLoop d rest ⟨some m, false, some (backendErrorStr o)⟩ (att ++ [m])

/-- `get_llm_summary`: first-success-wins iteration over the backends, the
deterministic fallback on exhaustion. -/
def get_llm_summary (env : List (Str × BackendOutcome)) (d : AnalysisData) :
    Str × LlmMetadata × List Str :=
  llmLoop d env ⟨none, false, none⟩ []

/-- The output record of `analyze_pr` (the `analysis_metadata` dict is
reduced to its LLM part; its other entries are config echoes, wall-clock
data and counts of fields already present). -/
structure AnalyzePROutput where
  summary : Str
  risk_score : ℚ
  files_changed : List Str
  notable_issues : List IssueDict
  suggested_tests : List Str
  suggested_labels : List Str
  human_readable_review : Str
  llm_metadata : Option LlmMetadata
deriving DecidableEq

/-- The rejection result built by `analyze_pr` when validation fails. -/
def invalidOutput (msg : Str) : AnalyzePROutput :=
  ⟨"Analysis failed due to invalid input".toList, 0, [],
   [⟨"input".toList, msg, none, none, none⟩],
   ["Fix input format".toList], ["invalid-input".toList],
   "Cannot analyze PR: ".toList ++ msg, none⟩

/-- The degraded result built by the outer `except` arm of `analyze_pr` for
an unexpected exception with message `e`. -/
def degradedOutput (e : Str) : AnalyzePROutput :=
  ⟨"Analysis encountered an unexpected error".toList, 0.5, ["error".toList],
   [⟨"system".toList, "Analysis error: ".toList ++ e, none, none, none⟩],
   ["Manual review required".toList], ["analysis-failed".toList],
   "PR analysis failed due to system error. Manual review recommended.".toList,
   none⟩

/-- The scoring formula as the specification words it: minimum of 1 and
base 0.1 plus the sum of the findings' risk weights plus, for a nonempty
changed-file list, the sum of the files' extension weights times 0.1 divided
by the number of changed files (0 for an empty list). -/
def riskFormulaSpec (cfg : AnalysisConfig) (files : List Str)
    (issues : List IssueDict) : ℚ :=
  min 1 (0.1 + (issues.map (fun i => i.risk_weight.getD 0.2)).sum +
    (if files = [] then 0
     else ((files.map (extWeight cfg)).sum * 0.1) / (files.length : ℚ)))

/-- Does the text contain a period followed, possibly after whitespace, by
another period — i.e. a match of the regex `\.\s*\.`? -/
def hasDotWsDot : Str → Bool
  | [] => false
  | c :: cs =>
    (c == '.' && ((cs.dropWhile isWs).head? == some '.')) || hasDotWsDot cs

/-- An environment in which every configured default backend refuses the
connection ("all backends unreachable"). -/
def envConnFail : List (Str × BackendOutcome) :=
  defaultModels.map (fun m => (m, BackendOutcome.connError))

/-- `analyze_pr`: validate, parse, score, derive suggestions, generate the
narrative.  `env` stands for the network; `exc` is an oracle naming the
unexpected exception raised inside the `try` block, if any — the pure
embedding itself cannot raise, so the outer `except` arm is entered exactly
when the oracle says an exception occurred. -/
def analyze_pr (cfg : AnalysisConfig) (env : List (Str × BackendOutcome))
    (exc : Option Str) (s : Str) : AnalyzePROutput :=
  match exc with
  | some e => degradedOutput e
  | none =>
    let v := validate_pr_input cfg s
    if v.1 = false then invalidOutput v.2
    else
      let st := parseDiff cfg s
      let risk := calculate_risk_score cfg st.files_changed st.notable_issues
      let summary := "PR changes in ".toList ++ natStr st.files_changed.length ++
        " file(s).".toList
      let d : AnalysisData := ⟨st.files_changed, risk, st.notable_issues, summary⟩
      let g := get_llm_summary env d
      ⟨summary, risk, st.files_changed, st.notable_issues,
       suggestedTests risk, suggestedLabels risk st.notable_issues,
       g.1, some g.2.1⟩

/-! ## Helper lemmas -/

/-- Folding addition of a mapped value equals the starting value plus the
sum of the mapped list. -/
theorem foldl_add_eq {α : Type} (g : α → ℚ) (l : List α) (a : ℚ) :
    l.foldl (fun acc x => acc + g x) a = a + (l.map g).sum := by
  induction l generalizing a with
  | nil => simp
  | cons x xs ih => simp [ih, add_assoc]

/-- On a backend list with no successful outcome, the loop returns the
deterministic fallback, keeps `llm_success` false, and attempts every model. -/
theorem llmLoop_all_fail (d : AnalysisData)
    (env : List (Str × BackendOutcome)) (meta : LlmMetadata) (att : List Str)
    (h : ∀ x ∈ env, x.2.isSuccess = false) (hm : meta.llm_success = false) :
    (llmLoop d env meta att).1 = generate_intelligent_fallback d ∧
    (llmLoop d env meta att).2.1.llm_success = false ∧
    (llmLoop d env meta att).2.2 = att ++ env.map Prod.fst := by
  induction env generalizing meta att with
  | nil => simpa [llmLoop] using hm
  | cons x rest ih =>
    obtain ⟨m, o⟩ := x
    have ho : o.isSuccess = false := h (m, o) (List.mem_cons_self _ _)
    cases o with
    | success t => simp [BackendOutcome.isSuccess] at ho
    | httpError code =>
      have := ih ⟨some m, false, some (backendErrorStr (.httpError code))⟩
        (att ++ [m]) (fun x hx => h x (List.mem_cons_of_mem _ hx)) rfl
      simpa [llmLoop] using this
    | connError =>
      have := ih ⟨some m, false, some (backendErrorStr .connError)⟩
        (att ++ [m]) (fun x hx => h x (List.mem_cons_of_mem _ hx)) rfl
      simpa [llmLoop] using this
    | timeout =>
      have := ih ⟨some m, false, some (backendErrorStr .timeout)⟩
        (att ++ [m]) (fun x hx => h x (List.mem_cons_of_mem _ hx)) rfl
      simpa [llmLoop] using this
    | otherError msg =>
      have := ih ⟨some m, false, some (backendErrorStr (.otherError msg))⟩
        (att ++ [m]) (fun x hx => h x (List.mem_cons_of_mem _ hx)) rfl
      simpa [llmLoop] using this

/-- With failing backends followed by a successful one, the loop returns the
sanitized successful text, credits that model, and attempts nothing after it. -/
theorem llmLoop_first_success (d : AnalysisData)
    (pre : List (Str × BackendOutcome)) (m t : Str)
    (post : List (Str × BackendOutcome)) (meta : LlmMetadata) (att : List Str)
    (h : ∀ x ∈ pre, x.2.isSuccess = false) :
    (llmLoop d (pre ++ (m, .success t) :: post) meta att).1 = clean_ai_response t ∧
    (llmLoop d (pre ++ (m, .success t) :: post) meta att).2.1.llm_used = some m ∧
    (llmLoop d (pre ++ (m, .success t) :: post) meta att).2.1.llm_success = true ∧
    (llmLoop d (pre ++ (m, .success t) :: post) meta att).2.2 =
      att ++ pre.map Prod.fst ++ [m] := by
  induction pre generalizing meta att with
  | nil => simp [llmLoop]
  | cons x rest ih =>
    obtain ⟨m', o⟩ := x
    have ho : o.isSuccess = false := h (m', o) (List.mem_cons_self _ _)
    cases o with
    | success t' => simp [BackendOutcome.isSuccess] at ho
    | httpError code =>
      have := ih ⟨some m', false, some (backendErrorStr (.httpError code))⟩
        (att ++ [m']) (fun x hx => h x (List.mem_cons_of_mem _ hx))
      simpa [llmLoop] using this
    | connError =>
      have := ih ⟨some m', false, some (backendErrorStr .connError)⟩
        (att ++ [m']) (fun x hx => h x (List.mem_cons_of_mem _ hx))
      simpa [llmLoop] using this
    | timeout =>
      have := ih ⟨some m', false, some (backendErrorStr .timeout)⟩
        (att ++ [m']) (fun x hx => h x (List.mem_cons_of_mem _ hx))
      simpa [llmLoop] using this
    | otherError msg =>
      have := ih ⟨some m', false, some (backendErrorStr (.otherError msg))⟩
        (att ++ [m']) (fun x hx => h x (List.mem_cons_of_mem _ hx))
      simpa [llmLoop] using this

/-! ## Claims -/

/-- C1: `calculate_risk_score` returns min(1.0, 0.1 + the sum of the
findings' risk weights + (the sum of the changed files' extension weights
times 0.1, divided by the number of changed files)), the file term being 0
for an empty file list; and on the scenario diff
`"diff --git a/x.py b/x.py\n+# TODO: fix\n"` under default configuration
with all backends unreachable the score is exactly 0.4 (= 0.1 + 0.2 +
(1.0*0.1)/1) and the suggested label is "needs-review". -/
theorem claim_c1_risk_formula (cfg : AnalysisConfig) (files : List Str)
    (issues : List IssueDict) :
    calculate_risk_score cfg files issues = riskFormulaSpec cfg files issues ∧
    (analyze_pr defaultConfig envConnFail none
        "diff --git a/x.py b/x.py\n+# TODO: fix\n".toList).risk_score = 0.4 ∧
    (analyze_pr defaultConfig envConnFail none
        "diff --git a/x.py b/x.py\n+# TODO: fix\n".toList).suggested_labels =
      ["needs-review".toList] := by
  refine ⟨?_, by with_unfolding_all rfl, by with_unfolding_all rfl⟩
  unfold calculate_risk_score riskFormulaSpec
  rw [min_comm, min_def, foldl_add_eq, foldl_add_eq, List.sum_map_mul_right]
  rcases eq_or_ne files [] with h | h
  · simp [h]
  · simp [h]

/-- C3: for empty, whitespace-only, oversized, or marker-free input,
`analyze_pr` returns a fully-formed result with zero risk score, an
"invalid-input" label and a single explanatory issue entry, whose message is
determined by the first failing check in the order
empty / whitespace-only / oversized / missing header. -/
theorem claim_c3_validation_gate (cfg : AnalysisConfig)
    (env : List (Str × BackendOutcome)) (s : Str)
    (h : s = [] ∨ pyStrip s = [] ∨ cfg.max_diff_size < s.length ∨
         containsSub s ("diff --git".toList) = false) :
    (analyze_pr cfg env none s).risk_score = 0 ∧
    "invalid-input".toList ∈ (analyze_pr cfg env none s).suggested_labels ∧
    (analyze_pr cfg env none s).notable_issues =
      [⟨"input".toList, (validate_pr_input cfg s).2, none, none, none⟩] ∧
    (s = [] → (validate_pr_input cfg s).2 = "PR diff text is empty".toList) ∧
    (s ≠ [] → pyStrip s = [] →
      (validate_pr_input cfg s).2 =
        "PR diff text contains only whitespace".toList) ∧
    (s ≠ [] → pyStrip s ≠ [] → cfg.max_diff_size < s.length →
      (validate_pr_input cfg s).2 =
        "PR diff too large (".toList ++ (toString s.length).toList ++
          " chars). Maximum ".toList ++ (toString cfg.max_diff_size).toList ++
          " characters.".toList) ∧
    (s ≠ [] → pyStrip s ≠ [] → s.length ≤ cfg.max_diff_size →
      containsSub s ("diff --git".toList) = false →
      (validate_pr_input cfg s).2 =
        "Invalid PR diff format - missing \x27diff --git\x27 header".toList) := by
  have hv1 : (validate_pr_input cfg s).1 = false := by
    unfold validate_pr_input
    split_ifs <;> simp_all
  have hout : analyze_pr cfg env none s =
      invalidOutput (validate_pr_input cfg s).2 := by
    unfold analyze_pr
    simp [hv1]
  refine ⟨by rw [hout]; rfl, by rw [hout]; simp [invalidOutput],
    by rw [hout]; rfl, ?_, ?_, ?_, ?_⟩
  · intro h1; unfold validate_pr_input; rw [if_pos h1]
  · intro h1 h2; unfold validate_pr_input; rw [if_neg h1, if_pos h2]
  · intro h1 h2 h3
    unfold validate_pr_input
    rw [if_neg h1, if_neg h2, if_pos h3]
  · intro h1 h2 h3 h4
    unfold validate_pr_input
    rw [if_neg h1, if_neg h2, if_neg (not_lt.mpr h3), if_pos h4]

/-- Witness for C3: the empty input is rejected with zero risk and the
"invalid-input" label. -/
theorem claim_c3_witness :
    (analyze_pr defaultConfig [] none []).risk_score = 0 ∧
    "invalid-input".toList ∈ (analyze_pr defaultConfig [] none []).suggested_labels :=
  ⟨(claim_c3_validation_gate defaultConfig [] [] (Or.inl rfl)).1,
   (claim_c3_validation_gate defaultConfig [] [] (Or.inl rfl)).2.1⟩

/-- C4: the embedded `analyze_pr` is a total function — every call returns a
well-formed output record — and whenever the exception oracle reports an
unexpected exception `e` inside the pipeline, the result is the degraded
record with risk 0.5, a synthetic "error" file entry, a "Manual review
required" test suggestion and the "analysis-failed" label. -/
theorem claim_c4_never_throws (cfg : AnalysisConfig)
    (env : List (Str × BackendOutcome)) (exc : Option Str) (e s : Str) :
    (∃ out : AnalyzePROutput, analyze_pr cfg env exc s = out) ∧
    analyze_pr cfg env (some e) s = degradedOutput e ∧
    (degradedOutput e).risk_score = 0.5 ∧
    (degradedOutput e).files_changed = ["error".toList] ∧
    (degradedOutput e).suggested_tests = ["Manual review required".toList] ∧
    (degradedOutput e).suggested_labels = ["analysis-failed".toList] ∧
    (degradedOutput e).notable_issues =
      [⟨"system".toList, "Analysis error: ".toList ++ e, none, none, none⟩] :=
  ⟨⟨_, rfl⟩, rfl, rfl, rfl, rfl, rfl, rfl⟩

/-- C5: on the rename-shaped header `diff --git a/old.py b/new.py` the
parser records the old-side path "old.py" (it strips two characters from
`parts[2]`, the `a/` token), not the new-side path "new.py" that the
source's own comment ("remove 'b/' prefix") and the claim describe. -/
theorem claim_c5_header_divergence :
    (parseDiff defaultConfig
      "diff --git a/old.py b/new.py\n+# TODO: x\n".toList).files_changed =
      ["old.py".toList] ∧
    (parseDiff defaultConfig
      "diff --git a/old.py b/new.py\n+# TODO: x\n".toList).current_file =
      some "old.py".toList ∧
    "new.py".toList ∉ (parseDiff defaultConfig
      "diff --git a/old.py b/new.py\n+# TODO: x\n".toList).files_changed := by
  decide

/-- C2: `get_llm_summary` tries backends strictly in configuration order:
with the failing models `pre` followed by a first success `(m, t)`, the
sanitized text of `t` is returned, metadata credits `m` with success, and
the attempted models are exactly `pre`'s models followed by `m` — nothing
after the success is attempted; with every backend failing, the result is
the deterministic fallback, metadata records no success, and every model
was attempted (each failure merely recorded and skipped). -/
theorem claim_c2_first_success_wins (d : AnalysisData)
    (pre : List (Str × BackendOutcome)) (m t : Str)
    (post env2 : List (Str × BackendOutcome))
    (h1 : ∀ x ∈ pre, x.2.isSuccess = false)
    (h2 : ∀ x ∈ env2, x.2.isSuccess = false) :
    ((get_llm_summary (pre ++ (m, .success t) :: post) d).1 =
        clean_ai_response t ∧
      (get_llm_summary (pre ++ (m, .success t) :: post) d).2.1.llm_used = some m ∧
      (get_llm_summary (pre ++ (m, .success t) :: post) d).2.1.llm_success = true ∧
      (get_llm_summary (pre ++ (m, .success t) :: post) d).2.2 =
        pre.map Prod.fst ++ [m]) ∧
    ((get_llm_summary env2 d).1 = generate_intelligent_fallback d ∧
      (get_llm_summary env2 d).2.1.llm_success = false ∧
      (get_llm_summary env2 d).2.2 = env2.map Prod.fst) := by
  constructor
  · have h := llmLoop_first_success d pre m t post ⟨none, false, none⟩ [] h1
    exact ⟨h.1, h.2.1, h.2.2.1, by simpa using h.2.2.2⟩
  · have h := llmLoop_all_fail d env2 ⟨none, false, none⟩ [] h2 rfl
    exact ⟨h.1, h.2.1, by simpa using h.2.2⟩

/-- Witness for C2: backend list [A, B] where A refuses the connection and B
answers "Looks good to me": B's sanitized text is returned, B is credited,
attempts are exactly [A, B]; and with both A and B failing the fallback
narrative for an empty-parse analysis is returned with no success recorded. -/
theorem claim_c2_witness :
    ((get_llm_summary
        [("A".toList, .connError), ("B".toList, .success "Looks good to me".toList)]
        ⟨[], 0, [], []⟩).1 = clean_ai_response "Looks good to me".toList ∧
      (get_llm_summary
        [("A".toList, .connError), ("B".toList, .success "Looks good to me".toList)]
        ⟨[], 0, [], []⟩).2.1.llm_used = some "B".toList ∧
      (get_llm_summary
        [("A".toList, .connError), ("B".toList, .success "Looks good to me".toList)]
        ⟨[], 0, [], []⟩).2.1.llm_success = true ∧
      (get_llm_summary
        [("A".toList, .connError), ("B".toList, .success "Looks good to me".toList)]
        ⟨[], 0, [], []⟩).2.2 = [("A".toList, BackendOutcome.connError)].map Prod.fst ++ ["B".toList]) ∧
    ((get_llm_summary
        [("A".toList, .connError), ("B".toList, .timeout)] ⟨[], 0, [], []⟩).1 =
        generate_intelligent_fallback ⟨[], 0, [], []⟩ ∧
      (get_llm_summary
        [("A".toList, .connError), ("B".toList, .timeout)] ⟨[], 0, [], []⟩).2.1.llm_success = false ∧
      (get_llm_summary
        [("A".toList, .connError), ("B".toList, .timeout)] ⟨[], 0, [], []⟩).2.2 =
        [("A".toList, BackendOutcome.connError), ("B".toList, BackendOutcome.timeout)].map Prod.fst) :=
  claim_c2_first_success_wins ⟨[], 0, [], []⟩
    [("A".toList, .connError)] "B".toList "Looks good to me".toList []
    [("A".toList, .connError), ("B".toList, .timeout)]
    (by decide) (by decide)

/-- C6: on an added line (`'+'`-headed) with a truthy cursor naming file `f`,
the parser appends exactly one finding when the in-configuration-order
first-match search (`List.find?` over `risk_keywords`, case-insensitive
substring test) returns a keyword — carrying that keyword, its weight and
the stripped line preview truncated to 100 characters — appends nothing when
no keyword matches, and never appends a finding when the cursor is unset or
empty. -/
theorem claim_c6_first_match_per_line (cfg : AnalysisConfig) (st : ParseState)
    (rest f k : Str) (w : ℚ)
    (h1 : st.current_file = some f) (h2 : f ≠ []) :
    (cfg.risk_keywords.find?
        (fun p => containsSub (lowerStr ('+' :: rest)) (lowerStr p.1)) =
          some (k, w) →
      processLine cfg st ('+' :: rest) =
        { st with notable_issues := st.notable_issues ++
            [⟨f, "Contains ".toList ++ k ++ " in added lines".toList,
              some ((pyStrip ('+' :: rest)).take 100), some w, some k⟩] }) ∧
    (cfg.risk_keywords.find?
        (fun p => containsSub (lowerStr ('+' :: rest)) (lowerStr p.1)) = none →
      processLine cfg st ('+' :: rest) = st) ∧
    (∀ (st' : ParseState) (line : Str), pyTruthy st'.current_file = false →
      (processLine cfg st' line).notable_issues = st'.notable_issues) := by
  have hpref : (("diff --git".toList).isPrefixOf ('+' :: rest)) = false := rfl
  have hplus : (['+'].isPrefixOf ('+' :: rest)) = true := by
    simp [List.isPrefixOf]
  have htruthy : pyTruthy st.current_file = true := by
    rw [h1]
    cases f with
    | nil => exact absurd rfl h2
    | cons c cs => rfl
  refine ⟨?_, ?_, ?_⟩
  · intro hfind
    unfold processLine
    rw [hpref, hplus, htruthy]
    simp only [Bool.false_eq_true, if_false, Bool.and_self, if_true, h1,
      Option.getD_some, hfind, mkFinding]
  · intro hfind
    unfold processLine
    rw [hpref, hplus, htruthy]
    simp only [Bool.false_eq_true, if_false, Bool.and_self, if_true, h1,
      Option.getD_some, hfind]
  · intro st' line hfalse
    unfold processLine
    rw [hfalse]
    simp only [Bool.and_false, Bool.false_eq_true, if_false]
    split
    · split <;> rfl
    · rfl

/-- Witness for C6: the added line "+# TODO: fix" under cursor "x.py"
produces exactly the first-match TODO finding with weight 0.2. -/
theorem claim_c6_witness :
    processLine defaultConfig ⟨some "x.py".toList, ["x.py".toList], []⟩
      ('+' :: "# TODO: fix".toList) =
      ⟨some "x.py".toList, ["x.py".toList],
        [⟨"x.py".toList, "Contains TODO in added lines".toList,
          some "+# TODO: fix".toList, some 0.2, some "TODO".toList⟩]⟩ :=
  (claim_c6_first_match_per_line defaultConfig
    ⟨some "x.py".toList, ["x.py".toList], []⟩ "# TODO: fix".toList
    "x.py".toList "TODO".toList 0.2 rfl (by decide)).1 (by with_unfolding_all rfl)

/-- C7 counterexample: the clamp is one-sided — a finding carrying a negative
risk weight (possible under a configuration with negative keyword weights)
drives the score below 0, so the score does not lie in [0, 1] for every
findings list under every configuration. -/
theorem claim_c7_counterexample :
    calculate_risk_score defaultConfig []
      [⟨"f".toList, "i".toList, none, some (-1), none⟩] < 0 ∧
    ¬ (0 ≤ calculate_risk_score defaultConfig []
          [⟨"f".toList, "i".toList, none, some (-1), none⟩] ∧
        calculate_risk_score defaultConfig []
          [⟨"f".toList, "i".toList, none, some (-1), none⟩] ≤ 1) := by
  have h : calculate_risk_score defaultConfig []
      [⟨"f".toList, "i".toList, none, some (-1), none⟩] < 0 := by
    with_unfolding_all rfl
  exact ⟨h, fun hc => absurd hc.1 (not_le.mpr h)⟩

/-- A keyed default lookup over an association list with nonnegative values
(and nonnegative default) is nonnegative. -/
theorem lookup_getD_nonneg (l : List (Str × ℚ)) (hw : ∀ p ∈ l, 0 ≤ p.2)
    (key : Str) : 0 ≤ (l.lookup key).getD 1 := by
  induction l with
  | nil => norm_num [List.lookup]
  | cons p t ih =>
    obtain ⟨a, b⟩ := p
    rw [List.lookup]
    cases hk : (key == a) with
    | true =>
      simpa using hw (a, b) (List.mem_cons_self _ _)
    | false =>
      exact ih (fun q hq => hw q (List.mem_cons_of_mem _ hq))

/-- Each file's extension weight is nonnegative when the configured
extension weights are (the miss default is 1). -/
theorem extWeight_nonneg (cfg : AnalysisConfig)
    (hw : ∀ p ∈ cfg.file_type_weights, 0 ≤ p.2) (f : Str) :
    0 ≤ extWeight cfg f :=
  lookup_getD_nonneg cfg.file_type_weights hw _

/-- C7 amended: for every configuration whose file-extension weights are
nonnegative and every findings list whose (defaulted) risk weights are
nonnegative — as all default weights are — the risk score lies in [0, 1]. -/
theorem claim_c7_amended (cfg : AnalysisConfig) (files : List Str)
    (issues : List IssueDict)
    (hw : ∀ p ∈ cfg.file_type_weights, 0 ≤ p.2)
    (hi : ∀ i ∈ issues, 0 ≤ i.risk_weight.getD 0.2) :
    0 ≤ calculate_risk_score cfg files issues ∧
    calculate_risk_score cfg files issues ≤ 1 := by
  have hA : (0:ℚ) ≤ issues.foldl (fun acc i => acc + i.risk_weight.getD 0.2) 0 := by
    rw [foldl_add_eq, zero_add]
    refine List.sum_nonneg ?_
    intro x hx
    obtain ⟨i, hi', rfl⟩ := List.mem_map.1 hx
    exact hi i hi'
  have hB : (0:ℚ) ≤ files.foldl (fun acc f => acc + extWeight cfg f * 0.1) 0 := by
    rw [foldl_add_eq, zero_add]
    refine List.sum_nonneg ?_
    intro x hx
    obtain ⟨g, _, rfl⟩ := List.mem_map.1 hx
    have := extWeight_nonneg cfg hw g
    positivity
  have htot : (0:ℚ) ≤ 0.1 + issues.foldl (fun acc i => acc + i.risk_weight.getD 0.2) 0 +
      (if files ≠ [] then
        files.foldl (fun acc f => acc + extWeight cfg f * 0.1) 0 / (files.length : ℚ)
       else 0) := by
    have hterm : (0:ℚ) ≤ (if files ≠ [] then
        files.foldl (fun acc f => acc + extWeight cfg f * 0.1) 0 / (files.length : ℚ)
       else 0) := by
      split
      · exact div_nonneg hB (by positivity)
      · exact le_refl 0
    have h01 : (0:ℚ) ≤ 0.1 := by norm_num
    linarith
  have key : ∀ x : ℚ, 0 ≤ x →
      0 ≤ (if x ≤ 1 then x else 1) ∧ (if x ≤ 1 then x else 1) ≤ 1 := by
    intro x hx
    by_cases h : x ≤ 1
    · rw [if_pos h]; exact ⟨hx, h⟩
    · rw [if_neg h]; exact ⟨by norm_num, le_refl 1⟩
  exact key _ htot

/-- Witness for C7 (amended): a single `.sql` file and one 0.3-weight
finding under the default configuration score inside [0, 1]. -/
theorem claim_c7_witness :
    0 ≤ calculate_risk_score defaultConfig ["x.sql".toList]
        [⟨"x.sql".toList, "i".toList, none, some 0.3, none⟩] ∧
      calculate_risk_score defaultConfig ["x.sql".toList]
        [⟨"x.sql".toList, "i".toList, none, some 0.3, none⟩] ≤ 1 :=
  claim_c7_amended defaultConfig ["x.sql".toList]
    [⟨"x.sql".toList, "i".toList, none, some 0.3, none⟩]
    (by intro p hp; fin_cases hp <;> norm_num [defaultConfig, defaultFileTypeWeights])
    (by intro i hi; fin_cases hi; norm_num)

/-- A keyed default lookup over an association list whose values are bounded
by `c ≥ 1` is bounded by `c`. -/
theorem lookup_getD_le (l : List (Str × ℚ)) (c : ℚ) (h1 : (1:ℚ) ≤ c)
    (hw : ∀ p ∈ l, p.2 ≤ c) (key : Str) : (l.lookup key).getD 1 ≤ c := by
  induction l with
  | nil => simpa [List.lookup] using h1
  | cons p t ih =>
    obtain ⟨a, b⟩ := p
    rw [List.lookup]
    cases hk : (key == a) with
    | true => simpa using hw (a, b) (List.mem_cons_self _ _)
    | false => exact ih (fun q hq => hw q (List.mem_cons_of_mem _ hq))

/-- Under the default configuration every file's extension weight is at most
1.3 (the largest configured weight; the miss default is 1). -/
theorem extWeight_default_le (f : Str) : extWeight defaultConfig f ≤ 1.3 := by
  refine lookup_getD_le _ _ (by norm_num) ?_ _
  intro p hp
  fin_cases hp <;> norm_num

/-- With no findings, the default-configuration risk score is at most 0.23:
base 0.1 plus an average per-file extension contribution of at most 0.13. -/
theorem score_no_issues_le (files : List Str) :
    calculate_risk_score defaultConfig files [] ≤ 0.23 := by
  have hsum : files.foldl (fun acc f => acc + extWeight defaultConfig f * 0.1) 0 ≤
      (files.length : ℚ) * 0.13 := by
    rw [foldl_add_eq, zero_add]
    have h := List.sum_le_card_nsmul
      (files.map (fun f => extWeight defaultConfig f * 0.1)) (0.13 : ℚ) ?_
    · rw [List.length_map, nsmul_eq_mul] at h
      exact_mod_cast h
    · intro x hx
      obtain ⟨g, _, rfl⟩ := List.mem_map.1 hx
      have := extWeight_default_le g
      nlinarith
  have key : ∀ x : ℚ, x ≤ 0.23 → (if x ≤ 1 then x else 1) ≤ 0.23 := by
    intro x hx
    rw [if_pos (by linarith)]
    exact hx
  cases hfe : files with
  | nil =>
    simp only [calculate_risk_score, List.foldl_nil]
    norm_num
  | cons a t =>
    have hne : files ≠ [] := by rw [hfe]; simp
    have hlen : (0:ℚ) < (files.length : ℚ) := by
      have h0 : 0 < files.length := by rw [hfe]; simp
      exact_mod_cast h0
    have hterm : files.foldl (fun acc f => acc + extWeight defaultConfig f * 0.1) 0 /
        (files.length : ℚ) ≤ 0.13 := by
      rw [div_le_iff₀ hlen]
      linarith
    rw [← hfe]
    simp only [calculate_risk_score, List.foldl_nil, hne, ne_eq,
      not_false_iff, if_true]
    refine key _ ?_
    linarith

/-- C9: for every diff that passes validation, parses to 3 changed files and
no findings (no added line matches a configured risk keyword), with every
backend failing, the returned narrative is the deterministic fallback, which
reports the 3 modified files, omits any issue clause (zero issues), and uses
the low-risk / standard-review phrasing. -/
theorem claim_c9_fallback_three_files (s : Str)
    (env : List (Str × BackendOutcome))
    (hv : (validate_pr_input defaultConfig s).1 = true)
    (hf : (parseDiff defaultConfig s).files_changed.length = 3)
    (hi : (parseDiff defaultConfig s).notable_issues = [])
    (henv : ∀ x ∈ env, x.2.isSuccess = false) :
    (analyze_pr defaultConfig env none s).human_readable_review =
      "This PR modifies 3 file(s). Low risk - standard review process.".toList := by
  have hrisk := score_no_issues_le (parseDiff defaultConfig s).files_changed
  have h7 : ¬ ((0.7:ℚ) <
      calculate_risk_score defaultConfig (parseDiff defaultConfig s).files_changed []) :=
    not_lt.mpr (le_trans hrisk (by norm_num))
  have h3 : ¬ ((0.3:ℚ) <
      calculate_risk_score defaultConfig (parseDiff defaultConfig s).files_changed []) :=
    not_lt.mpr (le_trans hrisk (by norm_num))
  simp only [analyze_pr, hv, Bool.true_eq_false, if_false, hi]
  simp only [get_llm_summary]
  rw [(llmLoop_all_fail _ env ⟨none, false, none⟩ [] henv rfl).1]
  simp only [generate_intelligent_fallback, hf, ne_eq, not_true_eq_false,
    if_false, if_neg h7, if_neg h3]
  decide

/-- Witness for C9: a three-file diff with keyword-free added lines, all
default backends unreachable. -/
theorem claim_c9_witness :
    (analyze_pr defaultConfig envConnFail none
      "diff --git a/a.py b/a.py\n+x = 1\ndiff --git a/b.py b/b.py\n+y = 2\ndiff --git a/c.py b/c.py\n+z = 3\n".toList).human_readable_review =
      "This PR modifies 3 file(s). Low risk - standard review process.".toList :=
  claim_c9_fallback_three_files
    "diff --git a/a.py b/a.py\n+x = 1\ndiff --git a/b.py b/b.py\n+y = 2\ndiff --git a/c.py b/c.py\n+z = 3\n".toList
    envConnFail (by with_unfolding_all rfl) (by with_unfolding_all rfl)
    (by with_unfolding_all rfl) (by decide)

/-- A whitespace character is one of the six ASCII whitespace characters. -/
theorem ws_cases (c : Char) (h : isWs c = true) :
    c = ' ' ∨ c = '\t' ∨ c = '\n' ∨ c = '\r' ∨ c = '\x0b' ∨ c = '\x0c' := by
  simpa [isWs, or_assoc] using h

/-- A fully stripped string is whitespace throughout. -/
theorem pyStrip_nil_ws (t : Str) (ht : pyStrip t = []) :
    ∀ c ∈ t, isWs c = true := by
  unfold pyStrip at ht
  rw [List.reverse_eq_nil_iff, List.dropWhile_eq_nil_iff] at ht
  intro c hc
  rw [← List.takeWhile_append_dropWhile (p := isWs) (l := t)] at hc
  rcases List.mem_append.1 hc with h | h
  · exact List.mem_takeWhile_imp h
  · exact ht c (List.mem_reverse.2 h)

/-- If none of the known meta-commentary openings begins the text, the
opening-strip loop leaves it unchanged. -/
theorem stripMetaStarts_id (s : Str)
    (h : ∀ p ∈ metaStarts, p.isPrefixOf s = false) : stripMetaStarts s = s := by
  have h1 : ("Here is a concise professional code review:".toList).isPrefixOf s =
      false := h _ (by simp [metaStarts])
  have h2 : ("Here\x27s a concise professional code review:".toList).isPrefixOf s =
      false := h _ (by simp [metaStarts])
  have h3 : ("Here is a professional assessment:".toList).isPrefixOf s = false :=
    h _ (by simp [metaStarts])
  have h4 : ("Here\x27s my code review:".toList).isPrefixOf s = false :=
    h _ (by simp [metaStarts])
  have h5 : ("Based on the PR diff:".toList).isPrefixOf s = false :=
    h _ (by simp [metaStarts])
  have h6 : ("Looking at this PR:".toList).isPrefixOf s = false :=
    h _ (by simp [metaStarts])
  simp only [stripMetaStarts, metaStarts, List.foldl_cons, List.foldl_nil,
    h1, h2, h3, h4, h5, h6, Bool.false_eq_true, if_false]

/-- A pattern-removal pass whose guard never fires on a whitespace-headed
suffix leaves an all-whitespace string unchanged. -/
theorem subPatAux_ws (g : Str → Bool)
    (hg : ∀ (c : Char) (cs : Str), isWs c = true → g (c :: cs) = false)
    (t : Str) (hw : ∀ c ∈ t, isWs c = true) : subPatAux g false t = t := by
  induction t with
  | nil => rfl
  | cons c cs ih =>
    have hcw : isWs c = true := hw c (List.mem_cons_self _ _)
    have hg' : g (c :: cs) = false := hg c cs hcw
    have ih' := ih (fun x hx => hw x (List.mem_cons_of_mem _ hx))
    by_cases hc : c = '\n'
    · simp only [subPatAux, if_pos hc, ih']
    · simp only [subPatAux, if_neg hc, Bool.false_eq_true, if_false, hg', ih']

/-- `Note:` cannot begin at a whitespace character. -/
theorem noteGuard_ws (c : Char) (cs : Str) (h : isWs c = true) :
    noteGuard (c :: cs) = false := by
  rcases ws_cases c h with h' | h' | h' | h' | h' | h' <;> subst h' <;> rfl

/-- `Overall` cannot begin at a whitespace character. -/
theorem ovGuard_ws (c : Char) (cs : Str) (h : isWs c = true) :
    ovGuard (c :: cs) = false := by
  rcases ws_cases c h with h' | h' | h' | h' | h' | h' <;> subst h' <;> rfl

/-- `I've kept` cannot begin at a whitespace character. -/
theorem keptGuard_ws (c : Char) (cs : Str) (h : isWs c = true) :
    keptGuard (c :: cs) = false := by
  rcases ws_cases c h with h' | h' | h' | h' | h' | h' <;> subst h' <;> rfl

/-- Meta-commentary openings (all starting with a letter) cannot begin an
all-whitespace string. -/
theorem metaStarts_ws_not_pref (t : Str) (hw : ∀ c ∈ t, isWs c = true) :
    ∀ p ∈ metaStarts, p.isPrefixOf t = false := by
  intro p hp
  cases t with
  | nil => fin_cases hp <;> rfl
  | cons a t' =>
    have haw : isWs a = true := hw a (List.mem_cons_self _ _)
    rcases ws_cases a haw with h' | h' | h' | h' | h' | h' <;> subst h' <;>
      fin_cases hp <;> rfl

/-- C10: for every input, `clean_ai_response` returns either the empty
string or text ending in '.', '!' or '?'; and an empty or whitespace-only
input comes back as the empty string with no period appended. -/
theorem claim_c10_terminal_punct (s t : Str) (ht : pyStrip t = []) :
    (clean_ai_response s = [] ∨ endsPunct (clean_ai_response s) = true) ∧
    clean_ai_response t = [] := by
  constructor
  · have key : ∀ r : Str,
        (if r ≠ [] ∧ endsPunct r = false then r ++ ['.'] else r) = [] ∨
        endsPunct (if r ≠ [] ∧ endsPunct r = false then r ++ ['.'] else r) =
          true := by
      intro r
      by_cases h1 : r ≠ [] ∧ endsPunct r = false
      · rw [if_pos h1]
        right
        simp [endsPunct, List.getLast?_concat]
      · rw [if_neg h1]
        by_cases he : r = []
        · exact Or.inl he
        · right
          cases hE : endsPunct r with
          | false => exact absurd ⟨he, hE⟩ h1
          | true => rfl
    exact key (collapsePeriods (collapseWs (pyStrip (subKept (pyStrip
      (subOverall (pyStrip (subNote (stripMetaStarts s)))))))))
  · have hws : ∀ c ∈ t, isWs c = true := pyStrip_nil_ws t ht
    have h0 : stripMetaStarts t = t :=
      stripMetaStarts_id t (metaStarts_ws_not_pref t hws)
    have h1 : subNote t = t := subPatAux_ws noteGuard noteGuard_ws t hws
    simp only [clean_ai_response, subNote] at h1 ⊢
    rw [h0, h1, ht]
    rfl

/-- Witness for C10: a whitespace-only response is returned empty. -/
theorem claim_c10_witness :
    (clean_ai_response "Ship it".toList = [] ∨
      endsPunct (clean_ai_response "Ship it".toList) = true) ∧
    clean_ai_response "  ".toList = [] :=
  claim_c10_terminal_punct "Ship it".toList "  ".toList (by decide)

/-! ## Lemmas for the sanitizer round-trip -/

/-- Extending on the left preserves a dot-whitespace-dot occurrence. -/
theorem hasDot_cons (c : Char) (cs : Str) (h : hasDotWsDot cs = true) :
    hasDotWsDot (c :: cs) = true := by
  simp [hasDotWsDot, h]

/-- Prepending any text preserves a dot-whitespace-dot occurrence. -/
theorem hasDot_append_left (x l : Str) (h : hasDotWsDot l = true) :
    hasDotWsDot (x ++ l) = true := by
  induction x with
  | nil => simpa using h
  | cons c cs ih => exact hasDot_cons c _ ih

/-- `dropWhile` on an extended list keeps the first kept element. -/
theorem dropWhile_append_cons (p : Char → Bool) (cs r : Str) (d : Char)
    (ds : Str) (h : cs.dropWhile p = d :: ds) :
    (cs ++ r).dropWhile p = d :: (ds ++ r) := by
  induction cs with
  | nil => simp at h
  | cons a as ih =>
    by_cases hpa : p a = true
    · rw [List.dropWhile_cons_of_pos hpa] at h
      rw [List.cons_append, List.dropWhile_cons_of_pos hpa]
      exact ih h
    · rw [List.dropWhile_cons_of_neg hpa] at h
      rw [List.cons_append, List.dropWhile_cons_of_neg hpa]
      injection h with h1 h2
      subst h1
      subst h2
      rfl

/-- Appending on the right preserves a dot-whitespace-dot occurrence. -/
theorem hasDot_append_right (l r : Str) (h : hasDotWsDot l = true) :
    hasDotWsDot (l ++ r) = true := by
  induction l with
  | nil => simp [hasDotWsDot] at h
  | cons c cs ih =>
    simp only [hasDotWsDot, Bool.or_eq_true, Bool.and_eq_true] at h
    rcases h with ⟨hcdot, hhead⟩ | htail
    · have hex : ∃ ds, cs.dropWhile isWs = '.' :: ds := by
        cases hdw : cs.dropWhile isWs with
        | nil => rw [hdw] at hhead; simp at hhead
        | cons d ds =>
          rw [hdw] at hhead
          simp only [List.head?_cons, beq_iff_eq, Option.some.injEq] at hhead
          subst hhead
          exact ⟨ds, rfl⟩
      obtain ⟨ds, hds⟩ := hex
      have h2 := dropWhile_append_cons isWs cs r '.' ds hds
      simp only [List.cons_append, hasDotWsDot, Bool.or_eq_true,
        Bool.and_eq_true, List.append_eq]
      exact Or.inl ⟨hcdot, by rw [h2]; simp⟩
    · simp only [List.cons_append, hasDotWsDot, Bool.or_eq_true]
      exact Or.inr (ih htail)

/-- Whitespace collapsing does not change the first non-whitespace
character. -/
theorem head_dw_collapse (l : Str) : ∀ b : Bool,
    ((collapseWsAux b l).dropWhile isWs).head? = (l.dropWhile isWs).head? := by
  induction l with
  | nil => intro b; rfl
  | cons c cs ih =>
    intro b
    by_cases hw : isWs c = true
    · cases b with
      | true =>
        rw [show collapseWsAux true (c :: cs) = collapseWsAux true cs from by
          simp [collapseWsAux, hw]]
        rw [ih true, List.dropWhile_cons_of_pos hw]
      | false =>
        rw [show collapseWsAux false (c :: cs) = ' ' :: collapseWsAux true cs from by
          simp [collapseWsAux, hw]]
        rw [List.dropWhile_cons_of_pos (show isWs ' ' = true from rfl)]
        rw [ih true, List.dropWhile_cons_of_pos hw]
    · rw [show collapseWsAux b (c :: cs) = c :: collapseWsAux false cs from by
        simp [collapseWsAux, hw]]
      rw [List.dropWhile_cons_of_neg hw, List.dropWhile_cons_of_neg hw]
      rfl

/-- Whitespace collapsing cannot create a dot-whitespace-dot occurrence. -/
theorem hasDot_collapse (l : Str) : ∀ b : Bool,
    hasDotWsDot (collapseWsAux b l) = true → hasDotWsDot l = true := by
  induction l with
  | nil => intro b h; simpa [collapseWsAux] using h
  | cons c cs ih =>
    intro b h
    by_cases hw : isWs c = true
    · cases b with
      | true =>
        rw [show collapseWsAux true (c :: cs) = collapseWsAux true cs from by
          simp [collapseWsAux, hw]] at h
        exact hasDot_cons c cs (ih true h)
      | false =>
        rw [show collapseWsAux false (c :: cs) = ' ' :: collapseWsAux true cs from by
          simp [collapseWsAux, hw]] at h
        simp only [hasDotWsDot, Bool.or_eq_true, Bool.and_eq_true] at h
        rcases h with ⟨habs, _⟩ | h
        · exact absurd habs (by decide)
        · exact hasDot_cons c cs (ih true h)
    · rw [show collapseWsAux b (c :: cs) = c :: collapseWsAux false cs from by
        simp [collapseWsAux, hw]] at h
      simp only [hasDotWsDot, Bool.or_eq_true, Bool.and_eq_true] at h ⊢
      rcases h with ⟨hcdot, hhead⟩ | h
      · refine Or.inl ⟨hcdot, ?_⟩
        rw [← head_dw_collapse cs false]
        exact hhead
      · exact Or.inr (ih false h)

/-- On text with no dot-whitespace-dot occurrence the period-collapsing scan
acts as the identity (joint statement for the two scanner states). -/
theorem cp_id_aux (n : ℕ) : ∀ l : Str, l.length ≤ n → hasDotWsDot l = false →
    cpAux l none = l ∧
    ∀ buf : Str, ((l.dropWhile isWs).head? = some '.' → False) →
      cpAux l (some buf) = '.' :: (buf ++ l) := by
  induction n with
  | zero =>
    intro l hl _
    have hnil : l = [] := List.length_eq_zero.1 (Nat.le_zero.1 hl)
    subst hnil
    exact ⟨rfl, fun buf _ => by simp [cpAux]⟩
  | succ n ih =>
    intro l hl hd
    cases l with
    | nil => exact ⟨rfl, fun buf _ => by simp [cpAux]⟩
    | cons c cs =>
      have hd' : (c == '.' && ((cs.dropWhile isWs).head? == some '.')) = false ∧
          hasDotWsDot cs = false := by simpa [hasDotWsDot] using hd
      obtain ⟨hA, hB⟩ := hd'
      have hlen : cs.length ≤ n := Nat.succ_le_succ_iff.1 (by simpa using hl)
      have IH := ih cs hlen hB
      constructor
      · by_cases hc : c = '.'
      
        · subst hc
          have hA' : ((cs.dropWhile isWs).head? == some '.') = false := by
            simpa using hA
          rw [show cpAux ('.' :: cs) none = cpAux cs (some []) from by
            simp [cpAux]]
          rw [IH.2 [] (fun hh => by rw [hh] at hA'; simp at hA')]
          simp
        · rw [show cpAux (c :: cs) none = c :: cpAux cs none from by
            simp [cpAux, hc]]
          rw [IH.1]
      · intro buf hh
        by_cases hc : c = '.'
        · exfalso
          apply hh
          subst hc
          rw [List.dropWhile_cons_of_neg (by decide)]
          rfl
        · by_cases hw : isWs c = true
          · rw [show cpAux (c :: cs) (some buf) = cpAux cs (some (buf ++ [c])) from by
              simp [cpAux, hc, hw]]
            have hh' : (cs.dropWhile isWs).head? = some '.' → False := by
              intro hx
              apply hh
              rw [List.dropWhile_cons_of_pos hw]
              exact hx
            rw [IH.2 (buf ++ [c]) hh']
            simp
          · rw [show cpAux (c :: cs) (some buf) =
                '.' :: (buf ++ c :: cpAux cs none) from by simp [cpAux, hc, hw]]
            rw [IH.1]

/-- Period collapsing is the identity on text without a dot-whitespace-dot
occurrence. -/
theorem collapsePeriods_id (l : Str) (h : hasDotWsDot l = false) :
    collapsePeriods l = l :=
  (cp_id_aux l.length l le_rfl h).1

/-- The first element surviving `dropWhile` fails the predicate. -/
theorem head_dropWhile_false (p : Char → Bool) (l : Str) (c : Char) (cs : Str)
    (h : l.dropWhile p = c :: cs) : p c = false := by
  induction l with
  | nil => simp at h
  | cons a as ih =>
    by_cases hpa : p a = true
    · rw [List.dropWhile_cons_of_pos hpa] at h
      exact ih h
    · rw [List.dropWhile_cons_of_neg hpa] at h
      injection h with h1 _
      subst h1
      simpa using hpa

/-- `dropWhile` is idempotent. -/
theorem dropWhile_dropWhile (p : Char → Bool) (l : Str) :
    (l.dropWhile p).dropWhile p = l.dropWhile p := by
  cases h : l.dropWhile p with
  | nil => rfl
  | cons c cs =>
    have hc := head_dropWhile_false p l c cs h
    rw [List.dropWhile_cons_of_neg (by simp [hc])]

/-- The start-stripped text is the stripped text plus trailing whitespace. -/
theorem pyStrip_mid (s : Str) : ∃ v, s.dropWhile isWs = pyStrip s ++ v := by
  refine ⟨((s.dropWhile isWs).reverse.takeWhile isWs).reverse, ?_⟩
  conv_lhs => rw [← List.reverse_reverse (s.dropWhile isWs),
    ← List.takeWhile_append_dropWhile (p := isWs)
      (l := (s.dropWhile isWs).reverse)]
  rw [List.reverse_append]
  rfl

/-- The input decomposes as whitespace, the stripped text, whitespace. -/
theorem pyStrip_decomp (s : Str) : ∃ u v, s = u ++ (pyStrip s ++ v) := by
  obtain ⟨v, hv⟩ := pyStrip_mid s
  exact ⟨s.takeWhile isWs, v, by
    conv_lhs => rw [← List.takeWhile_append_dropWhile (p := isWs) (l := s)]
    rw [hv]⟩

/-- Python `strip` is idempotent. -/
theorem pyStrip_idem (s : Str) : pyStrip (pyStrip s) = pyStrip s := by
  have hA : (pyStrip s).dropWhile isWs = pyStrip s := by
    cases hy : pyStrip s with
    | nil => rfl
    | cons c cs =>
      obtain ⟨v, hv⟩ := pyStrip_mid s
      rw [hy, List.cons_append] at hv
      have hc := head_dropWhile_false isWs s c (cs ++ v) hv
      rw [List.dropWhile_cons_of_neg (by simp [hc])]
  have hB : ((pyStrip s).reverse).dropWhile isWs = (pyStrip s).reverse := by
    rw [show (pyStrip s).reverse = ((s.dropWhile isWs).reverse).dropWhile isWs from by
      rw [pyStrip, List.reverse_reverse]]
    exact dropWhile_dropWhile _ _
  rw [pyStrip, hA, hB, List.reverse_reverse]

/-- Stripping preserves a non-whitespace last character. -/
theorem pyStrip_getLast (s : Str) (c : Char) (h : s.getLast? = some c)
    (hc : isWs c = false) : (pyStrip s).getLast? = some c := by
  have hx : s.dropWhile isWs ≠ [] := by
    intro hnil
    have hs : s = s.takeWhile isWs := by
      conv_lhs => rw [← List.takeWhile_append_dropWhile (p := isWs) (l := s)]
      rw [hnil, List.append_nil]
    have hcmem : c ∈ s := by
      obtain ⟨hne, hceq⟩ := List.mem_getLast?_eq_getLast (l := s) (x := c) h
      rw [hceq]
      exact List.getLast_mem hne
    have := List.mem_takeWhile_imp (hs ▸ hcmem)
    simp [hc] at this
  have hxl : (s.dropWhile isWs).getLast? = some c := by
    conv at h => rw [← List.takeWhile_append_dropWhile (p := isWs) (l := s)]
    rwa [List.getLast?_append_of_ne_nil _ hx] at h
  have hrev : (s.dropWhile isWs).reverse.head? = some c := by
    rw [List.head?_reverse]
    exact hxl
  cases hrx : (s.dropWhile isWs).reverse with
  | nil => rw [hrx] at hrev; simp at hrev
  | cons d ds =>
    rw [hrx] at hrev
    simp only [List.head?_cons, Option.some.injEq] at hrev
    subst hrev
    rw [pyStrip, hrx, List.dropWhile_cons_of_neg (by simp [hc])]
    rw [← hrx, List.reverse_reverse]
    exact hxl

/-- The pattern-removal scan never lengthens the text. -/
theorem subPatAux_length (g : Str → Bool) (l : Str) : ∀ b : Bool,
    (subPatAux g b l).length ≤ l.length := by
  induction l with
  | nil => intro b; simp [subPatAux]
  | cons c cs ih =>
    intro b
    by_cases hc : c = '\n'
    · rw [show subPatAux g b (c :: cs) = c :: subPatAux g false cs from by
        simp [subPatAux, hc]]
      simpa using Nat.succ_le_succ (ih false)
    · cases b with
      | true =>
        rw [show subPatAux g true (c :: cs) = subPatAux g true cs from by
          simp [subPatAux, hc]]
        exact (ih true).trans (Nat.le_succ _)
      | false =>
        by_cases hg : g (c :: cs) = true
        · rw [show subPatAux g false (c :: cs) = subPatAux g true cs from by
            simp [subPatAux, hc, hg]]
          exact (ih true).trans (Nat.le_succ _)
        · rw [show subPatAux g false (c :: cs) = c :: subPatAux g false cs from by
            simp [subPatAux, hc, hg]]
          simpa using Nat.succ_le_succ (ih false)

/-- If the pattern-removal scan returns its input unchanged, the guard fires
at no (non-newline-headed) suffix. -/
theorem subPatAux_no_fire (g : Str → Bool) (s : Str)
    (hid : subPatAux g false s = s) :
    ∀ l, l <:+ s → ∀ c cs, l = c :: cs → c ≠ '\n' → g l = false := by
  induction s with
  | nil =>
    intro l hl c cs hlc _
    rw [List.suffix_nil.1 hl] at hlc
    simp at hlc
  | cons a as ih =>
    intro l hl c cs hlc hc
    by_cases ha : a = '\n'
    · rw [show subPatAux g false (a :: as) = a :: subPatAux g false as from by
        simp [subPatAux, ha]] at hid
      have hid' : subPatAux g false as = as := by injection hid
      rcases List.suffix_cons_iff.1 hl with h | h
      · exfalso
        rw [hlc] at h
        injection h with h1 _
        exact hc (h1.trans ha)
      · exact ih hid' l h c cs hlc hc
    · by_cases hg : g (a :: as) = true
      · exfalso
        rw [show subPatAux g false (a :: as) = subPatAux g true as from by
          simp [subPatAux, ha, hg]] at hid
        have hlen := subPatAux_length g as true
        rw [hid] at hlen
        simp at hlen
      · rw [show subPatAux g false (a :: as) = a :: subPatAux g false as from by
          simp [subPatAux, ha, hg]] at hid
        have hid' : subPatAux g false as = as := by injection hid
        rcases List.suffix_cons_iff.1 hl with h | h
        · rw [h]
          simpa using hg
        · exact ih hid' l h c cs hlc hc

/-- If the guard fires at no (non-newline-headed) suffix, the
pattern-removal scan is the identity. -/
theorem subPatAux_id_of (g : Str → Bool) (s : Str)
    (h : ∀ l, l <:+ s → ∀ c cs, l = c :: cs → c ≠ '\n' → g l = false) :
    subPatAux g false s = s := by
  induction s with
  | nil => rfl
  | cons a as ih =>
    have has : ∀ l, l <:+ as → ∀ c cs, l = c :: cs → c ≠ '\n' → g l = false :=
      fun l hl => h l (hl.trans (List.suffix_cons a as))
    by_cases ha : a = '\n'
    · rw [show subPatAux g false (a :: as) = a :: subPatAux g false as from by
        simp [subPatAux, ha]]
      rw [ih has]
    · have hg : g (a :: as) = false := h (a :: as) List.suffix_rfl a as rfl ha
      rw [show subPatAux g false (a :: as) = a :: subPatAux g false as from by
        simp [subPatAux, ha, hg]]
      rw [ih has]

/-- Case-insensitive "starts with" survives appending on the right. -/
theorem ciPref_append (pat l r : Str) (h : ciPref pat l = true) :
    ciPref pat (l ++ r) = true := by
  unfold ciPref at h ⊢
  rw [List.isPrefixOf_iff_prefix] at h ⊢
  unfold lowerStr at h ⊢
  rw [List.map_append]
  exact h.trans (List.prefix_append _ _)

/-- A case-insensitive literal needs at least its own length of text. -/
theorem ciPref_length (pat l : Str) (h : ciPref pat l = true) :
    pat.length ≤ l.length := by
  unfold ciPref at h
  rw [List.isPrefixOf_iff_prefix] at h
  simpa [lowerStr] using h.length_le

/-- `takeWhile` of the shorter text is an initial segment of `takeWhile` of
the extended text. -/
theorem takeWhile_pref_app (p : Char → Bool) (x r : Str) :
    x.takeWhile p <+: (x ++ r).takeWhile p := by
  induction x with
  | nil => simp
  | cons c cs ih =>
    by_cases hp : p c = true
    · rw [List.cons_append, List.takeWhile_cons_of_pos hp,
        List.takeWhile_cons_of_pos hp]
      exact List.cons_prefix_cons.2 ⟨rfl, ih⟩
    · rw [List.takeWhile_cons_of_neg hp]
      simp

/-- Case-insensitive containment is monotone along "is initial segment of". -/
theorem ciContains_mono (t tt pat : Str) (hp : t <+: tt)
    (h : ciContains t pat = true) : ciContains tt pat = true := by
  unfold ciContains containsSub at h ⊢
  rw [decide_eq_true_eq] at h ⊢
  exact h.trans (List.IsPrefix.isInfix (hp.map Char.toLower))

/-- The `Note:` guard survives appending text on the right. -/
theorem noteGuard_mono (l r : Str) (h : noteGuard l = true) :
    noteGuard (l ++ r) = true := ciPref_append _ _ _ h

/-- The `Overall…recommendation` guard survives appending on the right. -/
theorem ovGuard_mono (l r : Str) (h : ovGuard l = true) :
    ovGuard (l ++ r) = true := by
  unfold ovGuard at h ⊢
  rw [Bool.and_eq_true] at h ⊢
  obtain ⟨h1, h2⟩ := h
  refine ⟨ciPref_append _ _ _ h1, ?_⟩
  have hlen : (7:ℕ) ≤ l.length := by
    have := ciPref_length ovStr l h1
    rw [show ovStr.length = 7 from rfl] at this
    exact this
  rw [List.drop_append_of_le_length hlen]
  refine ciContains_mono _ _ _ ?_ h2
  unfold takeNotNl
  exact takeWhile_pref_app _ _ _

/-- The `I've kept…concise` guard survives appending on the right. -/
theorem keptGuard_mono (l r : Str) (h : keptGuard l = true) :
    keptGuard (l ++ r) = true := by
  unfold keptGuard at h ⊢
  rw [Bool.and_eq_true] at h ⊢
  obtain ⟨h1, h2⟩ := h
  refine ⟨ciPref_append _ _ _ h1, ?_⟩
  have hlen : (9:ℕ) ≤ l.length := by
    have := ciPref_length keptStr l h1
    rw [show keptStr.length = 9 from rfl] at this
    exact this
  rw [List.drop_append_of_le_length hlen]
  refine ciContains_mono _ _ _ ?_ h2
  unfold takeNotNl
  exact takeWhile_pref_app _ _ _

/-- A pattern removal that leaves the whole text unchanged also leaves the
stripped text unchanged, provided its guard is monotone under right
extension. -/
theorem sub_id_strip (g : Str → Bool)
    (mono : ∀ l r, g l = true → g (l ++ r) = true)
    (s : Str) (hid : subPatAux g false s = s) :
    subPatAux g false (pyStrip s) = pyStrip s := by
  apply subPatAux_id_of
  intro l hl c cs hlc hc
  obtain ⟨v, hv⟩ := pyStrip_mid s
  obtain ⟨u, hu⟩ := hl
  have hsuffix : (l ++ v) <:+ s := by
    have h1 : s.dropWhile isWs = u ++ (l ++ v) := by
      rw [hv, ← hu, List.append_assoc]
    have h2 : (l ++ v) <:+ s.dropWhile isWs := ⟨u, h1.symm⟩
    exact h2.trans (List.dropWhile_suffix isWs)
  have hgf : g (l ++ v) = false := by
    refine subPatAux_no_fire g s hid (l ++ v) hsuffix c (cs ++ v) ?_ hc
    rw [hlc, List.cons_append]
  cases hgl : g l with
  | false => rfl
  | true =>
    rw [mono l v hgl] at hgf
    exact absurd hgf (by simp)

/-- Whitespace collapsing preserves a non-whitespace last character. -/
theorem collapse_getLast (l : Str) (c : Char) (hc : isWs c = false) :
    ∀ b : Bool, l.getLast? = some c →
      (collapseWsAux b l).getLast? = some c := by
  induction l with
  | nil => intro b hl; simp at hl
  | cons a as ih =>
    intro b hl
    cases as with
    | nil =>
      simp only [List.getLast?_singleton, Option.some.injEq] at hl
      subst hl
      rw [show collapseWsAux b [a] = [a] from by simp [collapseWsAux, hc]]
      rfl
    | cons x xs =>
      rw [List.getLast?_cons_cons] at hl
      by_cases hw : isWs a = true
      · cases b with
        | true =>
          rw [show collapseWsAux true (a :: x :: xs) =
              collapseWsAux true (x :: xs) from by simp [collapseWsAux, hw]]
          exact ih true hl
        | false =>
          rw [show collapseWsAux false (a :: x :: xs) =
              ' ' :: collapseWsAux true (x :: xs) from by
            simp [collapseWsAux, hw]]
          have hx := ih true hl
          cases hXc : collapseWsAux true (x :: xs) with
          | nil => rw [hXc] at hx; simp at hx
          | cons y ys =>
            rw [hXc] at hx
            rw [List.getLast?_cons_cons]
            exact hx
      · rw [show collapseWsAux b (a :: x :: xs) =
            a :: collapseWsAux false (x :: xs) from by simp [collapseWsAux, hw]]
        have hx := ih false hl
        cases hXc : collapseWsAux false (x :: xs) with
        | nil => rw [hXc] at hx; simp at hx
        | cons y ys =>
          rw [hXc] at hx
          rw [List.getLast?_cons_cons]
          exact hx

/-- Text ending in terminal punctuation ends in a specific non-whitespace
character. -/
theorem endsPunct_getLast (s : Str) (h : endsPunct s = true) :
    ∃ c, s.getLast? = some c ∧ (c == '.' || c == '!' || c == '?') = true ∧
      isWs c = false := by
  unfold endsPunct at h
  cases hgl : s.getLast? with
  | none => rw [hgl] at h; simp at h
  | some c =>
    rw [hgl] at h
    refine ⟨c, rfl, h, ?_⟩
    have hcc : c = '.' ∨ c = '!' ∨ c = '?' := by simpa [or_assoc] using h
    rcases hcc with rfl | rfl | rfl <;> rfl

/-- C8 (amended): sanitizing text that ends in terminal punctuation, starts
with no banned opening, contains no text matching the three banned trailing
patterns (the pattern-removal passes leave it unchanged), and contains no
duplicated periods (no dot-whitespace-dot occurrence) returns it unchanged
except for whitespace normalization: leading/trailing whitespace stripped
and interior whitespace runs collapsed to single spaces. -/
theorem claim_c8_roundtrip (s : Str)
    (h0 : ∀ p ∈ metaStarts, p.isPrefixOf s = false)
    (h1 : subNote s = s) (h2 : subOverall s = s) (h3 : subKept s = s)
    (h4 : hasDotWsDot s = false)
    (h5 : endsPunct s = true) :
    clean_ai_response s = collapseWs (pyStrip s) := by
  have e0 : stripMetaStarts s = s := stripMetaStarts_id s h0
  have e1 : pyStrip (subNote (stripMetaStarts s)) = pyStrip s := by rw [e0, h1]
  have e2 : subOverall (pyStrip s) = pyStrip s :=
    sub_id_strip ovGuard ovGuard_mono s h2
  have e3 : subKept (pyStrip s) = pyStrip s :=
    sub_id_strip keptGuard keptGuard_mono s h3
  have echain :
      pyStrip (subKept (pyStrip (subOverall (pyStrip
        (subNote (stripMetaStarts s)))))) = pyStrip s := by
    rw [e1, e2, pyStrip_idem, e3, pyStrip_idem]
  have hdotp : hasDotWsDot (pyStrip s) = false := by
    cases hdp : hasDotWsDot (pyStrip s) with
    | false => rfl
    | true =>
      obtain ⟨u, v, hdec⟩ := pyStrip_decomp s
      have habs := hasDot_append_left u _ (hasDot_append_right _ v hdp)
      rw [← hdec] at habs
      rw [habs] at h4
      exact absurd h4 (by simp)
  have hdotc : hasDotWsDot (collapseWs (pyStrip s)) = false := by
    cases hdc : hasDotWsDot (collapseWs (pyStrip s)) with
    | false => rfl
    | true =>
      have habs := hasDot_collapse (pyStrip s) false hdc
      rw [habs] at hdotp
      exact absurd hdotp (by simp)
  have e4 : collapsePeriods (collapseWs (pyStrip s)) = collapseWs (pyStrip s) :=
    collapsePeriods_id _ hdotc
  obtain ⟨c, hgl, hpc, hcw⟩ := endsPunct_getLast s h5
  have hglp : (pyStrip s).getLast? = some c := pyStrip_getLast s c hgl hcw
  have hglc : (collapseWs (pyStrip s)).getLast? = some c :=
    collapse_getLast (pyStrip s) c hcw false hglp
  have hep : endsPunct (collapseWs (pyStrip s)) = true := by
    unfold endsPunct
    rw [hglc]
    exact hpc
  have hcond : ¬ (collapseWs (pyStrip s) ≠ [] ∧
      endsPunct (collapseWs (pyStrip s)) = false) := by
    intro hcontra
    rw [hep] at hcontra
    exact absurd hcontra.2 (by simp)
  simp only [clean_ai_response]
  rw [echain, e4, if_neg hcond]

/-- Counterexample for C8 as stated: "Hi.." ends in '.', starts with no
banned opening, matches none of the banned trailing patterns, and contains
no whitespace at all (so whitespace normalization is the identity on it),
yet `clean_ai_response` changes it (the duplicated-period collapse yields
"Hi."). -/
theorem claim_c8_counterexample :
    (∀ p ∈ metaStarts, p.isPrefixOf "Hi..".toList = false) ∧
    subNote "Hi..".toList = "Hi..".toList ∧
    subOverall "Hi..".toList = "Hi..".toList ∧
    subKept "Hi..".toList = "Hi..".toList ∧
    endsPunct "Hi..".toList = true ∧
    collapseWs (pyStrip "Hi..".toList) = "Hi..".toList ∧
    clean_ai_response "Hi..".toList ≠ "Hi..".toList := by
  decide

/-- Witness for C8 (amended): "All  good!" is returned with only its double
space collapsed. -/
theorem claim_c8_witness :
    clean_ai_response "All  good!".toList =
      collapseWs (pyStrip "All  good!".toList) :=
  claim_c8_roundtrip "All  good!".toList (by decide) (by decide) (by decide)
    (by decide) (by decide) (by decide)
